import Mathlib

set_option maxHeartbeats 1000000

/-! Shallow embedding of the pongo2rethink repository (loader.go and
    finder.go).  loader.go exists in two historical variants, both kept in
    the source: V1 (the version with the explicit not-found check, keys
    built as Prefix + "/" + path on both the load and the fetch side) and
    V2 (the earlier version, which stores files under the bare path while
    fetching under Prefix + "/" + path).  The external collaborators
    (RethinkDB point get / insert, Go filepath.Match, filepath.Clean,
    filepath.Dir, filepath.Walk) are modelled explicitly so that every
    adapter operation is an executable Lean function. -/

/-- Errors observable from the adapter, one constructor per distinct
    error-producing site in the source. -/
inductive Err where
  | templateNotFound
  | emptyResult
  | weirdState
  | readFileErr (path : String)
  | walkErr
  | storeErr (msg : String)
  deriving DecidableEq

/-- loader.go: the Template record; Name is the storage key. -/
structure Template where
  Name : String
  Data : String
  deriving DecidableEq

/-- A RethinkDB table holding Template records. -/
abbrev Store := List Template

/-- Modelled from the spec: the document store client's point lookup
    (spec section 6: get(table, key) yields a record or NotFound); the
    table is the list of stored records and Name is the primary key
    (spec section 3: Name is the unique identifier within the store). -/
def storeGet (s : Store) (key : String) : Option Template :=
  s.find? fun u => u.Name == key

/-- Write result of an insert as read by loader.go (result.Inserted and
    result.Replaced), plus the error count the backend reports on a
    primary-key conflict. -/
structure WriteResult where
  Inserted : Nat
  Replaced : Nat
  Errors : Nat
  deriving DecidableEq

/-- Modelled from the spec: the store client's insert operation
    (spec section 6: insert(table, record, conflictPolicy) yields counts).
    Every call site in loader.go passes no conflict option, i.e. the
    default insert-or-fail policy (spec section 3 records insert-or-fail
    semantics for single-template loading): a record whose key already
    exists is not written and the write result reports zero inserted and
    zero replaced records. -/
def rethinkInsert (s : Store) (t : Template) : Store × WriteResult :=
  match storeGet s t.Name with
  | some _ => (s, ⟨0, 0, 1⟩)
  | none => (s ++ [t], ⟨1, 0, 0⟩)

/-- loader.go line 51 and line 208 (both variants): the key fetchTemplate
    looks up, rpath := t.r.Prefix + "/" + path. -/
def fetchKey (pre path : String) : String := pre ++ "/" ++ path

/-- loader.go line 87 (V1): the key LoadTemplateFromFile stores under,
    template.Name = t.r.Prefix + "/" + path. -/
def loadFileKeyV1 (pre path : String) : String := pre ++ "/" ++ path

/-- loader.go line 238 (V2): the key LoadTemplateFromFile stores under,
    template.Name = path. -/
def loadFileKeyV2 (_pre path : String) : String := path

/-- loader.go lines 49-65 (V1): fetchTemplate.  runErr models a failure of
    the underlying query run (session or connection); otherwise the cursor
    yields the record at the key, or ErrEmptyResult, which this variant
    maps to the dedicated "Template not found." error.  In every failure
    case the zero-value template is returned alongside the error. -/
def fetchTemplateV1 (runErr : Option String) (s : Store) (pre path : String) :
    Template × Option Err :=
  match runErr with
  | some e => (⟨"", ""⟩, some (Err.storeErr e))
  | none =>
    match storeGet s (fetchKey pre path) with
    | some t => (t, none)
    | none => (⟨"", ""⟩, some Err.templateNotFound)

/-- loader.go lines 206-216 (V2): fetchTemplate without the ErrEmptyResult
    check; the backend's empty-result error is returned unchanged. -/
def fetchTemplateV2 (runErr : Option String) (s : Store) (pre path : String) :
    Template × Option Err :=
  match runErr with
  | some e => (⟨"", ""⟩, some (Err.storeErr e))
  | none =>
    match storeGet s (fetchKey pre path) with
    | some t => (t, none)
    | none => (⟨"", ""⟩, some Err.emptyResult)

/-- loader.go lines 73-82 (V1) and 224-233 (V2), identical in both
    variants: LoadTemplate inserts the record as-is and fails with the
    "weird state" error when the write result reports neither an insert
    nor a replace. -/
def LoadTemplate (runErr : Option String) (s : Store) (t : Template) :
    Store × Option Err :=
  match runErr with
  | some e => (s, some (Err.storeErr e))
  | none =>
    let r := rethinkInsert s t
    if r.2.Inserted = 0 ∧ r.2.Replaced = 0 then (r.1, some Err.weirdState)
    else (r.1, none)

/-- loader.go lines 85-101 (V1): LoadTemplateFromFile; fs models
    ioutil.ReadFile (none meaning a read failure).  The session is
    modelled as healthy here; a run failure surfaces exactly as in
    LoadTemplate. -/
def LoadTemplateFromFileV1 (fs : String → Option String) (s : Store)
    (pre path : String) : Store × Option Err :=
  match fs path with
  | none => (s, some (Err.readFileErr path))
  | some data =>
    let r := rethinkInsert s ⟨loadFileKeyV1 pre path, data⟩
    if r.2.Inserted = 0 ∧ r.2.Replaced = 0 then (r.1, some Err.weirdState)
    else (r.1, none)

/-- loader.go lines 236-252 (V2): LoadTemplateFromFile; the record is
    stored under the bare path, with no prefix applied. -/
def LoadTemplateFromFileV2 (fs : String → Option String) (s : Store)
    (pre path : String) : Store × Option Err :=
  match fs path with
  | none => (s, some (Err.readFileErr path))
  | some data =>
    let r := rethinkInsert s ⟨loadFileKeyV2 pre path, data⟩
    if r.2.Inserted = 0 ∧ r.2.Replaced = 0 then (r.1, some Err.weirdState)
    else (r.1, none)

/-- loader.go lines 131-135 (V1): GetTemplateBytes returns the byte
    conversion of the fetched template's Data together with the fetch
    error; bytes are modelled as the character list of the string. -/
def GetTemplateBytes (runErr : Option String) (s : Store) (pre path : String) :
    List Char × Option Err :=
  let r := fetchTemplateV1 runErr s pre path
  (r.1.Data.data, r.2)

/-- loader.go lines 138-141 (V1): GetTemplateString. -/
def GetTemplateString (runErr : Option String) (s : Store) (pre path : String) :
    String × Option Err :=
  let r := fetchTemplateV1 runErr s pre path
  (r.1.Data, r.2)

/-- loader.go lines 155-161 (V1): Get wraps GetTemplateBytes in a reader;
    on error it returns nil (modelled as none) instead of a reader. -/
def Get (runErr : Option String) (s : Store) (pre path : String) :
    Option (List Char) × Option Err :=
  match GetTemplateBytes runErr s pre path with
  | (_, some e) => (none, some e)
  | (d, none) => (some d, none)

/-- Models strings.HasPrefix on character lists. -/
def hasPre : List Char → List Char → Bool
  | [], _ => true
  | _ :: _, [] => false
  | a :: as, b :: bs => a == b && hasPre as bs

/-- Modelled from the spec: the Key Resolver's buildKey (spec section 4.2)
    concatenates owner, prefix, "/" and the logical path.  The source has
    no owner field and builds keys inline (loader.go lines 51 and 87); the
    owner-bearing composition as a named function exists only in the
    spec's words. -/
def buildKey (owner pre logicalPath : String) : String :=
  owner ++ pre ++ "/" ++ logicalPath

/-- Modelled from the spec: the Key Resolver's stripKey (spec section 4.2)
    removes the exact leading substring owner+prefix+"/" from the key; a
    key not starting with that substring is returned unchanged. -/
def stripKey (owner pre key : String) : String :=
  if hasPre (owner ++ pre ++ "/").data key.data then
    String.mk (key.data.drop (owner ++ pre ++ "/").data.length)
  else key

/-- Go path/filepath getEsc (unix): reads one possibly-escaped character
    of a character-class range; errors on a leading dash, bracket, end of
    chunk, or when nothing follows the character. -/
def getEsc : List Char → Except Unit (Char × List Char)
  | [] => Except.error ()
  | c :: cs =>
    if c = '-' ∨ c = ']' then Except.error ()
    else if c = '\\' then
      match cs with
      | [] => Except.error ()
      | d :: ds => if ds = [] then Except.error () else Except.ok (d, ds)
    else if cs = [] then Except.error () else Except.ok (c, cs)

/-- Go path/filepath matchChunk, character-class range loop: consumes
    lo-hi ranges until the closing bracket (which only closes after at
    least one range), accumulating whether r falls in some range. -/
def parseRanges : Nat → List Char → Char → Nat → Bool →
    Except Unit (Bool × List Char)
  | 0, _, _, _, _ => Except.error ()
  | fuel + 1, chunk, r, nrange, m =>
    if chunk.headD ' ' = ']' ∧ 0 < nrange ∧ chunk ≠ [] then
      Except.ok (m, chunk.tail)
    else
      match getEsc chunk with
      | Except.error _ => Except.error ()
      | Except.ok (lo, rest1) =>
        if rest1.headD ' ' = '-' then
          match getEsc rest1.tail with
          | Except.error _ => Except.error ()
          | Except.ok (hi, rest3) =>
            parseRanges fuel rest3 r (nrange + 1)
              (m || (decide (lo ≤ r) && decide (r ≤ hi)))
        else
          parseRanges fuel rest1 r (nrange + 1)
            (m || (decide (lo ≤ r) && decide (r ≤ lo)))

/-- Result of Go's matchChunk: a syntax error, a failed match, or a match
    leaving the unconsumed rest of the name. -/
inductive ChunkRes where
  | err
  | failed
  | ok (rest : List Char)
  deriving DecidableEq

/-- Go path/filepath matchChunk (current unix version, with the failed
    flag that keeps parsing the chunk for syntax errors after a match
    failure).  Fuel bounds the loop; chunk length plus one always
    suffices since every iteration consumes at least one chunk
    character. -/
def matchChunkGo : Nat → List Char → List Char → Bool → ChunkRes
  | _, [], s, failed => if failed then ChunkRes.failed else ChunkRes.ok s
  | 0, _ :: _, _, _ => ChunkRes.err
  | fuel + 1, c :: chunk, s, failed0 =>
    let failed := failed0 || s.isEmpty
    if c = '[' then
      let r := if failed then Char.ofNat 0 else s.headD (Char.ofNat 0)
      let s1 := if failed then s else s.tail
      let negd : Bool := chunk.headD ' ' == '^'
      let chunk1 := if negd then chunk.tail else chunk
      match parseRanges (chunk1.length + 1) chunk1 r 0 false with
      | Except.error _ => ChunkRes.err
      | Except.ok (m, chunk2) =>
        matchChunkGo fuel chunk2 s1 (failed || (m == negd))
    else if c = '?' then
      if failed then matchChunkGo fuel chunk s true
      else matchChunkGo fuel chunk s.tail (s.headD ' ' == '/')
    else if c = '\\' then
      match chunk with
      | [] => ChunkRes.err
      | d :: rest =>
        if failed then matchChunkGo fuel rest s true
        else matchChunkGo fuel rest s.tail (!(d == s.headD ' '))
    else
      if failed then matchChunkGo fuel chunk s true
      else matchChunkGo fuel chunk s.tail (!(c == s.headD ' '))

/-- Go path/filepath scanChunk, star-stripping head: removes the leading
    run of asterisks, reporting whether there was one. -/
def stripStars : List Char → Bool × List Char
  | [] => (false, [])
  | c :: cs =>
    if c = '*' then (true, (stripStars cs).2)
    else (false, c :: cs)

/-- Go path/filepath scanChunk, body: splits the pattern at the next
    unbracketed asterisk, keeping track of bracket state. -/
def scanChunkLoop : List Char → Bool → List Char × List Char
  | [], _ => ([], [])
  | c :: cs, inrange =>
    if c = '\\' then
      match cs with
      | [] => ([c], [])
      | d :: ds =>
        let r := scanChunkLoop ds inrange
        (c :: d :: r.1, r.2)
    else if c = '[' then
      let r := scanChunkLoop cs true
      (c :: r.1, r.2)
    else if c = ']' then
      let r := scanChunkLoop cs false
      (c :: r.1, r.2)
    else if c = '*' ∧ inrange = false then ([], c :: cs)
    else
      let r := scanChunkLoop cs inrange
      (c :: r.1, r.2)

/-- Go path/filepath scanChunk: strips leading stars, then cuts the
    pattern at the next top-level star. -/
def scanChunk (p : List Char) : Bool × List Char × List Char :=
  let sp := stripStars p
  let cr := scanChunkLoop sp.2 false
  (sp.1, cr.1, cr.2)

/-- Result of the star retry loop inside Go's Match. -/
inductive StarRes where
  | found (t : List Char)
  | exhausted
  | err
  deriving DecidableEq

/-- Go path/filepath Match, star retry loop: looks for a chunk match
    skipping one leading name character at a time, never crossing a
    separator; patEmpty records whether the pattern is exhausted after
    this chunk (in which case a match leaving residue is skipped). -/
def starLoop (chunk : List Char) (patEmpty : Bool) : List Char → StarRes
  | [] => StarRes.exhausted
  | c :: rest =>
    if c = '/' then StarRes.exhausted
    else
      match matchChunkGo (chunk.length + 1) chunk rest false with
      | ChunkRes.err => StarRes.err
      | ChunkRes.ok t =>
        if patEmpty ∧ t ≠ [] then starLoop chunk patEmpty rest
        else StarRes.found t
      | ChunkRes.failed => starLoop chunk patEmpty rest

/-- Go path/filepath Match, trailing syntactic-validity loop: before
    returning a no-error mismatch, checks that every remaining chunk of
    the pattern parses. -/
def validRest : Nat → List Char → Bool
  | _, [] => true
  | 0, _ :: _ => true
  | fuel + 1, c :: cs =>
    let sc := scanChunk (c :: cs)
    match matchChunkGo (sc.2.1.length + 1) sc.2.1 [] false with
    | ChunkRes.err => false
    | _ => validRest fuel sc.2.2

/-- Outcome of Go's filepath.Match: matched, an ordinary mismatch, or
    ErrBadPattern. -/
inductive MRes where
  | matched
  | noMatch
  | badPattern
  deriving DecidableEq

/-- Go path/filepath Match, outer chunk loop.  Fuel bounds the loop;
    pattern length plus one always suffices since every iteration
    consumes at least one pattern character. -/
def matchLoop : Nat → List Char → List Char → MRes
  | 0, _, _ => MRes.badPattern
  | fuel + 1, pattern, name =>
    match pattern with
    | [] => if name.isEmpty then MRes.matched else MRes.noMatch
    | _ :: _ =>
      let sc := scanChunk pattern
      let star := sc.1
      let chunk := sc.2.1
      let rest := sc.2.2
      if star = true ∧ chunk = [] then
        (if name.contains '/' then MRes.noMatch else MRes.matched)
      else
        let afterStar : MRes :=
          if star = true then
            match starLoop chunk rest.isEmpty name with
            | StarRes.found t => matchLoop fuel rest t
            | StarRes.err => MRes.badPattern
            | StarRes.exhausted =>
              if validRest (rest.length + 1) rest then MRes.noMatch
              else MRes.badPattern
          else
            if validRest (rest.length + 1) rest then MRes.noMatch
            else MRes.badPattern
        match matchChunkGo (chunk.length + 1) chunk name false with
        | ChunkRes.ok t =>
          if t = [] ∨ rest ≠ [] then matchLoop fuel rest t else afterStar
        | ChunkRes.err => MRes.badPattern
        | ChunkRes.failed => afterStar

/-- Go path/filepath Match on unix, as called by finder.go line 16:
    first component is the matched boolean, second reports
    ErrBadPattern. -/
def fpMatch (pattern name : String) : Bool × Bool :=
  match matchLoop (pattern.length + 1) pattern.data name.data with
  | MRes.matched => (true, false)
  | MRes.noMatch => (false, false)
  | MRes.badPattern => (false, true)

/-- Go path/filepath Clean, dot-dot backtracking: out.w is decremented
    and then lowered while it stays above dotdot and the character at the
    new write position is not a separator; this computes the final write
    position starting from w. -/
def popIdx (l : List Char) (dotdot : Nat) : Nat → Nat
  | 0 => 0
  | w + 1 =>
    if w + 1 ≤ dotdot then w + 1
    else if l.getD (w + 1) ' ' = '/' then w + 1
    else popIdx l dotdot w

/-- Go path/filepath Clean, main loop (unix separators).  State: the
    remaining input, the output buffer, the dotdot barrier and the rooted
    flag.  Fuel bounds the loop; input length plus one suffices since
    every iteration consumes at least one input character. -/
def cleanLoop : Nat → List Char → List Char → Nat → Bool → List Char
  | 0, _, out, _, _ => out
  | fuel + 1, rest, out, dotdot, rooted =>
    match rest with
    | [] => out
    | c :: rs =>
      if c = '/' then cleanLoop fuel rs out dotdot rooted
      else if c = '.' ∧ (rs = [] ∨ rs.headD ' ' = '/') then
        cleanLoop fuel rs out dotdot rooted
      else if c = '.' ∧ rs.headD ' ' = '.' ∧
          (rs.tail = [] ∨ rs.tail.headD ' ' = '/') then
        if dotdot < out.length then
          cleanLoop fuel rs.tail (out.take (popIdx out dotdot (out.length - 1)))
            dotdot rooted
        else if rooted = false then
          let out2 := (if 0 < out.length then out ++ ['/'] else out) ++ ['.', '.']
          cleanLoop fuel rs.tail out2 out2.length rooted
        else cleanLoop fuel rs.tail out dotdot rooted
      else
        let run := rest.takeWhile fun ch => ch ≠ '/'
        let rest2 := rest.dropWhile fun ch => ch ≠ '/'
        let out2 :=
          (if (rooted = true ∧ out.length ≠ 1) ∨ (rooted = false ∧ out.length ≠ 0)
            then out ++ ['/'] else out) ++ run
        cleanLoop fuel rest2 out2 dotdot rooted

/-- Go path/filepath Clean on unix: empty input yields a dot; a rooted
    path keeps its leading separator; an empty output yields a dot. -/
def fpClean (path : String) : String :=
  if path = "" then "."
  else
    let l := path.data
    let rooted := l.headD ' ' = '/'
    let out :=
      if rooted then cleanLoop (l.length + 1) l ['/'] 1 true
      else cleanLoop (l.length + 1) l [] 0 false
    if out.length = 0 then "." else String.mk out

/-- Go path/filepath Dir on unix: everything up to and including the last
    separator, Cleaned; with no separator present this is Clean of the
    empty string, a dot. -/
def fpDir (path : String) : String :=
  let l := path.data
  let keep := l.length - (l.reverse.takeWhile fun c => c ≠ '/').length
  fpClean (String.mk (l.take keep))

/-- Go path/filepath IsAbs on unix: the path starts with a separator. -/
def fpIsAbs (path : String) : Bool :=
  path.data.headD ' ' == '/'

/-- Go path/filepath Join of two elements on unix: empty elements are
    skipped and the result is Cleaned; all-empty input yields the empty
    string. -/
def fpJoin (a b : String) : String :=
  if a = "" then (if b = "" then "" else fpClean b)
  else fpClean (a ++ "/" ++ b)

/-- loader.go lines 144-152 (V1) and 294-302 (V2), identical in both
    variants: Abs, the pongo2 loader path-resolution method, on unix
    (filepath.Separator is the slash). -/
def Abs (base name : String) : String :=
  if fpIsAbs name = true ∨ base = "" then name
  else if name = "" then base
  else fpDir base ++ "/" ++ name

mutual
/-- A filesystem subtree: a regular file or a directory with a readable
    flag (false models a directory whose entries cannot be listed, the
    abort-free failure mode of filepath.Walk). -/
inductive FSTree where
  | file (name : String)
  | dir (name : String) (readable : Bool) (children : FSList)
/-- Children of a directory, in traversal order. -/
inductive FSList where
  | nil
  | cons (hd : FSTree) (tl : FSList)
end

/-- Base name of a tree node, what info.Name() reports. -/
def FSTree.name : FSTree → String
  | FSTree.file n => n
  | FSTree.dir n _ _ => n

mutual
/-- Every directory in the tree can be listed. -/
def FSTree.allReadable : FSTree → Bool
  | FSTree.file _ => true
  | FSTree.dir _ r cs => r && FSList.allReadable cs
def FSList.allReadable : FSList → Bool
  | FSList.nil => true
  | FSList.cons t ts => FSTree.allReadable t && FSList.allReadable ts
end

mutual
/-- Entries visited by a complete walk of the tree rooted at path, in
    visiting order: full path, base name, and whether the entry is a
    directory.  Child paths are composed with filepath.Join, exactly as
    filepath.Walk does. -/
def walkEntries (path : String) : FSTree → List (String × String × Bool)
  | FSTree.file n => [(path, n, false)]
  | FSTree.dir n _ cs => (path, n, true) :: walkEntriesList path cs
def walkEntriesList (path : String) : FSList → List (String × String × Bool)
  | FSList.nil => []
  | FSList.cons c cs =>
    walkEntries (fpJoin path (FSTree.name c)) c ++ walkEntriesList path cs
end

mutual
/-- finder.go lines 14-22 together with Go filepath.Walk: the walker
    appends the path of every visited non-directory entry whose base name
    matches the pattern (the Match error is discarded, finder.go line 16)
    and propagates the error passed in by Walk, so an unreadable
    directory aborts the walk.  Returns the accumulated matches and
    whether the walk aborted. -/
def walkGo (pat : String) (path : String) : FSTree → List String →
    List String × Bool
  | FSTree.file n, acc =>
    (if (fpMatch pat n).1 then acc ++ [path] else acc, false)
  | FSTree.dir _ r cs, acc =>
    if r then walkGoList pat path cs acc else (acc, true)
def walkGoList (pat : String) (path : String) : FSList → List String →
    List String × Bool
  | FSList.nil, acc => (acc, false)
  | FSList.cons c cs, acc =>
    let r := walkGo pat (fpJoin path (FSTree.name c)) c acc
    if r.2 then (r.1, true) else walkGoList pat path cs r.1
end

/-- finder.go lines 26-34: FindTemplates runs the walk from the given
    path and returns the collected matches together with the walk error;
    the tree argument is the filesystem content rooted at that path. -/
def FindTemplates (path pattern : String) (tree : FSTree) :
    List String × Option Err :=
  let r := walkGo pattern path tree []
  (r.1, if r.2 then some Err.walkErr else none)

/-- The non-directory entries of the walk whose base name matches the
    pattern under filepath.Match, in walk order: the set of paths the
    claims say FindTemplates must return. -/
def matchFiles (pat path : String) (t : FSTree) : List String :=
  ((walkEntries path t).filter fun e => !e.2.2 && (fpMatch pat e.2.1).1).map
    fun e => e.1

/-- The same selection over a list of children. -/
def matchFilesList (pat path : String) (ts : FSList) : List String :=
  ((walkEntriesList path ts).filter fun e => !e.2.2 && (fpMatch pat e.2.1).1).map
    fun e => e.1

/-- loader.go lines 110-127 (V1), per-file loop of LoadTemplatesFromDir:
    each file is read and inserted under Prefix + "/" + path, aborting on
    the first read failure or weird-state write. -/
def loadLoop (pre : String) (fs : String → Option String) :
    List String → Store → Store × Option Err
  | [], s => (s, none)
  | f :: rest, s =>
    match fs f with
    | none => (s, some (Err.readFileErr f))
    | some data =>
      let r := rethinkInsert s ⟨pre ++ "/" ++ f, data⟩
      if r.2.Inserted = 0 ∧ r.2.Replaced = 0 then (r.1, some Err.weirdState)
      else loadLoop pre fs rest r.1

/-- loader.go lines 105-128 (V1): LoadTemplatesFromDir finds the matching
    files and loads each of them. -/
def LoadTemplatesFromDir (fs : String → Option String) (tree : FSTree)
    (s : Store) (pre dir pattern : String) : Store × Option Err :=
  match FindTemplates dir pattern tree with
  | (_, some e) => (s, some e)
  | (tfiles, none) => loadLoop pre fs tfiles s

/-- Concrete fixture: a readable directory holding a matching file, a
    non-matching file and a readable subdirectory with a matching file. -/
def sampleTree : FSTree :=
  FSTree.dir "root" true (FSList.cons (FSTree.file "a.tmpl")
    (FSList.cons (FSTree.file "b.txt")
      (FSList.cons
        (FSTree.dir "sub" true (FSList.cons (FSTree.file "c.tmpl") FSList.nil))
        FSList.nil)))

/-- Concrete fixture: a readable directory holding a matching file
    followed by an unreadable subdirectory. -/
def badDirTree : FSTree :=
  FSTree.dir "root" true (FSList.cons (FSTree.file "a.tmpl")
    (FSList.cons (FSTree.dir "bad" false FSList.nil) FSList.nil))

/-- Concrete fixture: file contents for sampleTree. -/
def sampleFs : String → Option String :=
  fun p =>
    if p = "root/a.tmpl" ∨ p = "root/sub/c.tmpl" then some "X" else none

theorem hasPre_append (a b : List Char) : hasPre a (a ++ b) = true := by
  induction a with
  | nil => rfl
  | cons c cs ih => simp [hasPre, ih]

theorem storeGet_append (s₁ s₂ : Store) (k : String) (h : storeGet s₁ k = none) :
    storeGet (s₁ ++ s₂) k = storeGet s₂ k := by
  induction s₁ with
  | nil => simp
  | cons a as ih =>
    simp only [storeGet, List.cons_append, List.find?] at h ⊢
    cases hb : (a.Name == k) with
    | true => simp [hb] at h
    | false =>
      simp only [hb] at h ⊢
      exact ih h

theorem storeGet_singleton (t : Template) : storeGet [t] t.Name = some t := by
  simp [storeGet, List.find?]

/-- C2: stripping the leading owner+prefix+"/" from the key built as
    owner+prefix+"/"+logicalPath recovers the logical path exactly, for
    all owner, prefix and logical path strings. -/
theorem C2_strip_build_roundtrip (owner pre lp : String) :
    stripKey owner pre (buildKey owner pre lp) = lp := by
  unfold stripKey buildKey
  have hdata : (owner ++ pre ++ "/" ++ lp).data =
      (owner ++ pre ++ "/").data ++ lp.data := by
    simp [String.data_append]
  rw [hdata, hasPre_append]
  simp only [if_true, List.drop_left]

/-- C1 fails on the second loader variant: LoadTemplateFromFile stores
    the template under the bare path "x", while fetchTemplate looks up
    "pre/x"; consequently a template loaded from file through V2 is not
    found again by the V2 fetch. -/
theorem C1_counterexample :
    loadFileKeyV2 "pre" "x" = "x" ∧ fetchKey "pre" "x" = "pre/x" ∧
      ("x" : String) ≠ "pre/x" ∧
      (LoadTemplateFromFileV2 (fun q => if q = "x" then some "D" else none)
          [] "pre" "x").2 = none ∧
      fetchTemplateV2 none
          (LoadTemplateFromFileV2 (fun q => if q = "x" then some "D" else none)
            [] "pre" "x").1 "pre" "x" =
        (⟨"", ""⟩, some Err.emptyResult) := by
  refine ⟨rfl, rfl, by decide, by decide, by decide⟩

/-- C1 amended: in the first loader variant the storage key written by
    LoadTemplateFromFile and the key looked up by fetchTemplate agree and
    both equal Prefix + "/" + path (the owner segment does not exist in
    the configuration, i.e. is always empty); in the second variant
    LoadTemplateFromFile persists under the bare path while fetchTemplate
    looks up Prefix + "/" + path, and those two keys differ for every
    prefix and path.  Behaviourally, a fresh template loaded through the
    V1 loader is found again by the V1 fetch under the same key. -/
theorem C1_amended (pre path : String) :
    loadFileKeyV1 pre path = fetchKey pre path ∧
    fetchKey pre path = "" ++ pre ++ "/" ++ path ∧
    loadFileKeyV2 pre path = path ∧
    loadFileKeyV2 pre path ≠ fetchKey pre path ∧
    (∀ fs s data, fs path = some data →
      storeGet s (fetchKey pre path) = none →
      (LoadTemplateFromFileV1 fs s pre path).2 = none ∧
      fetchTemplateV1 none (LoadTemplateFromFileV1 fs s pre path).1 pre path =
        (⟨fetchKey pre path, data⟩, none)) := by
  refine ⟨rfl, ?_, rfl, ?_, ?_⟩
  · apply String.ext
    simp [fetchKey, String.data_append]
  · intro h
    have hlen := congrArg (fun s => s.data.length) h
    simp only [loadFileKeyV2, fetchKey, String.data_append] at hlen
    simp at hlen
    omega
  · intro fs s data hfs hmiss
    have hload : LoadTemplateFromFileV1 fs s pre path =
        (s ++ [⟨fetchKey pre path, data⟩], none) := by
      unfold LoadTemplateFromFileV1 rethinkInsert loadFileKeyV1 fetchKey
      rw [hfs]
      unfold fetchKey at hmiss
      simp [hmiss]
    rw [hload]
    refine ⟨rfl, ?_⟩
    unfold fetchTemplateV1
    rw [storeGet_append s [⟨fetchKey pre path, data⟩] (fetchKey pre path) hmiss,
      storeGet_singleton]

/-- C1 witness for the amended round trip at a concrete input. -/
theorem C1_witness :
    (LoadTemplateFromFileV1 (fun q => if q = "x" then some "D" else none)
        [] "pre" "x").2 = none ∧
      fetchTemplateV1 none
          (LoadTemplateFromFileV1 (fun q => if q = "x" then some "D" else none)
            [] "pre" "x").1 "pre" "x" =
        (⟨fetchKey "pre" "x", "D"⟩, none) :=
  (C1_amended "pre" "x").2.2.2.2
    (fun q => if q = "x" then some "D" else none) [] "D" rfl rfl

/-- C4: on a key with no record, the V1 fetch fails with the dedicated
    not-found error and the V2 fetch with the backend's dedicated
    empty-result sentinel; neither is the pass-through store error. -/
theorem C4_fetch_not_found (s : Store) (pre path : String)
    (h : storeGet s (fetchKey pre path) = none) :
    fetchTemplateV1 none s pre path = (⟨"", ""⟩, some Err.templateNotFound) ∧
    fetchTemplateV2 none s pre path = (⟨"", ""⟩, some Err.emptyResult) ∧
    (∀ msg, Err.templateNotFound ≠ Err.storeErr msg ∧
      Err.emptyResult ≠ Err.storeErr msg) := by
  refine ⟨?_, ?_, fun msg => ⟨by simp, by simp⟩⟩
  · unfold fetchTemplateV1
    rw [h]
  · unfold fetchTemplateV2
    rw [h]

/-- C4 witness: the empty store has no record under the key. -/
theorem C4_witness :
    storeGet [] (fetchKey "p" "x") = none ∧
    fetchTemplateV1 none [] "p" "x" = (⟨"", ""⟩, some Err.templateNotFound) :=
  ⟨rfl, (C4_fetch_not_found [] "p" "x" rfl).1⟩

/-- C8: LoadTemplate errors exactly when the backend run fails or the
    write result reports zero inserted and zero replaced records; on
    success the record is appended as-is and is retrievable under its
    given key. -/
theorem C8_load_template_iff (runErr : Option String) (s : Store) (t : Template) :
    ((LoadTemplate runErr s t).2 ≠ none ↔
      runErr ≠ none ∨
        ((rethinkInsert s t).2.Inserted = 0 ∧
          (rethinkInsert s t).2.Replaced = 0)) ∧
    (runErr = none → storeGet s t.Name = none →
      LoadTemplate runErr s t = (s ++ [t], none) ∧
      storeGet (s ++ [t]) t.Name = some t) := by
  constructor
  · cases runErr with
    | some e => simp [LoadTemplate]
    | none =>
      unfold LoadTemplate rethinkInsert
      cases h : storeGet s t.Name with
      | some u => simp
      | none => simp
  · intro hre hmiss
    subst hre
    unfold LoadTemplate rethinkInsert
    rw [hmiss]
    simp only []
    refine ⟨by simp, ?_⟩
    rw [storeGet_append s [t] t.Name hmiss]
    exact storeGet_singleton t

/-- C8 witness at a concrete fresh insert. -/
theorem C8_witness :
    LoadTemplate none [] ⟨"k", "v"⟩ = ([⟨"k", "v"⟩], none) ∧
    storeGet [⟨"k", "v"⟩] (Template.mk "k" "v").Name = some ⟨"k", "v"⟩ := by
  have h := (C8_load_template_iff none [] ⟨"k", "v"⟩).2 rfl rfl
  exact ⟨h.1, h.2⟩

/-- C10: whenever the underlying fetch fails, GetTemplateBytes returns
    the empty byte slice together with the error, GetTemplateString the
    empty string together with the error, and Get returns none in place
    of a reader alongside the same error. -/
theorem C10_failure_projections (runErr : Option String) (s : Store)
    (pre path : String) (e : Err)
    (h : (fetchTemplateV1 runErr s pre path).2 = some e) :
    GetTemplateBytes runErr s pre path = ([], some e) ∧
    GetTemplateString runErr s pre path = ("", some e) ∧
    Get runErr s pre path = (none, some e) := by
  have hzero : fetchTemplateV1 runErr s pre path = (⟨"", ""⟩, some e) := by
    unfold fetchTemplateV1 at h ⊢
    cases runErr with
    | some m => simp at h ⊢; exact h
    | none =>
      cases hg : storeGet s (fetchKey pre path) with
      | some u => rw [hg] at h; simp at h
      | none => rw [hg] at h; simp at h ⊢; exact h
  refine ⟨?_, ?_, ?_⟩
  · unfold GetTemplateBytes
    rw [hzero]
  · unfold GetTemplateString
    rw [hzero]
  · unfold Get GetTemplateBytes
    rw [hzero]

/-- C10 witness at the empty store. -/
theorem C10_witness :
    GetTemplateBytes none [] "p" "x" = ([], some Err.templateNotFound) ∧
    Get none [] "p" "x" = (none, some Err.templateNotFound) := by
  have h := C10_failure_projections none [] "p" "x" Err.templateNotFound rfl
  exact ⟨h.1, h.2.2⟩

/-- C3: Abs returns name when name is absolute or base is empty, base
    when name is empty, and otherwise the directory component of base
    joined with name by a separator; in particular the four sample
    evaluations of the spec hold. -/
theorem C3_abs_resolution :
    (∀ base name, (fpIsAbs name = true ∨ base = "") → Abs base name = name) ∧
    (∀ base name, fpIsAbs name = false → base ≠ "" → name = "" →
      Abs base name = base) ∧
    (∀ base name, fpIsAbs name = false → base ≠ "" → name ≠ "" →
      Abs base name = fpDir base ++ "/" ++ name) ∧
    Abs "" "x" = "x" ∧ Abs "a/b" "" = "a/b" ∧ Abs "a/b" "/c" = "/c" ∧
    Abs "a/b" "c" = "a/c" := by
  refine ⟨?_, ?_, ?_, by decide, by decide, by decide, by decide⟩
  · intro base name h
    unfold Abs
    rw [if_pos h]
  · intro base name h1 h2 h3
    unfold Abs
    rw [if_neg, if_pos h3]
    rintro (ha | hb)
    · rw [h1] at ha; exact Bool.false_ne_true ha
    · exact h2 hb
  · intro base name h1 h2 h3
    unfold Abs
    rw [if_neg, if_neg h3]
    rintro (ha | hb)
    · rw [h1] at ha; exact Bool.false_ne_true ha
    · exact h2 hb

/-- C3 witness: the relative-joining clause at a concrete input. -/
theorem C3_witness : Abs "d/e" "f" = "d/f" := by
  have h := C3_abs_resolution.2.2.1 "d/e" "f" (by decide) (by decide) (by decide)
  rw [h]
  decide

theorem storeGet_cons_self (k d : String) (rest : Store) :
    storeGet (⟨k, d⟩ :: rest) k = some ⟨k, d⟩ := by
  simp [storeGet, List.find?]

theorem storeGet_append_some (s ext : Store) (k : String) (u : Template)
    (h : storeGet s k = some u) : storeGet (s ++ ext) k = some u := by
  induction s with
  | nil => simp [storeGet] at h
  | cons a as ih =>
    simp only [storeGet, List.cons_append, List.find?] at h ⊢
    cases hb : (a.Name == k) with
    | true => simp only [hb] at h ⊢; exact h
    | false => simp only [hb] at h ⊢; exact ih h

theorem loadLoop_extends (pre : String) (fs : String → Option String) :
    ∀ files s, ∃ ext, (loadLoop pre fs files s).1 = s ++ ext := by
  intro files
  induction files with
  | nil => intro s; exact ⟨[], by simp [loadLoop]⟩
  | cons f rest ih =>
    intro s
    cases hfs : fs f with
    | none => exact ⟨[], by simp [loadLoop, hfs]⟩
    | some data =>
      cases hsg : storeGet s (pre ++ "/" ++ f) with
      | some u =>
        refine ⟨[], ?_⟩
        simp [loadLoop, rethinkInsert, hfs, hsg]
      | none =>
        obtain ⟨ext, hext⟩ := ih (s ++ [⟨pre ++ "/" ++ f, data⟩])
        refine ⟨⟨pre ++ "/" ++ f, data⟩ :: ext, ?_⟩
        simp only [loadLoop, rethinkInsert, hfs, hsg]
        simp [hext, List.append_assoc]

theorem loadLoop_rerun (pre : String) (fs : String → Option String) :
    ∀ files s₀ s₁, loadLoop pre fs files s₀ = (s₁, none) →
      loadLoop pre fs files s₁ =
        (s₁, if files = [] then none else some Err.weirdState) := by
  intro files
  cases files with
  | nil => intro s₀ s₁ h; simp [loadLoop]
  | cons f rest =>
    intro s₀ s₁ h
    simp only [loadLoop, rethinkInsert] at h
    cases hfs : fs f with
    | none => rw [hfs] at h; simp at h
    | some data =>
      rw [hfs] at h
      cases hsg : storeGet s₀ (pre ++ "/" ++ f) with
      | some u => rw [hsg] at h; simp at h
      | none =>
        rw [hsg] at h
        simp only [if_neg (by simp : ¬((1 : Nat) = 0 ∧ (0 : Nat) = 0))] at h
        have hs₁ : s₁ = (loadLoop pre fs rest (s₀ ++ [⟨pre ++ "/" ++ f, data⟩])).1 :=
          (congrArg Prod.fst h).symm
        obtain ⟨ext, hext⟩ :=
          loadLoop_extends pre fs rest (s₀ ++ [⟨pre ++ "/" ++ f, data⟩])
        have hpresent : storeGet s₁ (pre ++ "/" ++ f) =
            some ⟨pre ++ "/" ++ f, data⟩ := by
          rw [hs₁, hext, List.append_assoc,
            storeGet_append s₀ _ _ hsg, List.singleton_append]
          exact storeGet_cons_self _ _ _
        simp only [loadLoop, rethinkInsert, hfs, hpresent]
        simp

/-- C5 fails on the code: the per-file insert uses the backend's default
    insert-or-fail policy, so the second run of LoadTemplatesFromDir over
    an already-populated store fails with the weird-state write error on
    the first matched file instead of succeeding. -/
theorem C5_counterexample :
    (LoadTemplatesFromDir sampleFs sampleTree [] "pre" "root" "*.tmpl").2 =
      none ∧
    (LoadTemplatesFromDir sampleFs sampleTree
        (LoadTemplatesFromDir sampleFs sampleTree [] "pre" "root" "*.tmpl").1
        "pre" "root" "*.tmpl").2 = some Err.weirdState := by
  constructor
  · decide
  · decide

/-- C5 amended: a first successful run of LoadTemplatesFromDir makes the
    second run over the same directory, pattern and store fail with the
    weird-state write error on the first matched file (succeeding only
    when no file matches), while leaving the store content exactly as the
    first run left it. -/
theorem C5_amended (fs : String → Option String) (tree : FSTree)
    (pre dir pat : String) (s₀ : Store)
    (h : (LoadTemplatesFromDir fs tree s₀ pre dir pat).2 = none) :
    LoadTemplatesFromDir fs tree
        (LoadTemplatesFromDir fs tree s₀ pre dir pat).1 pre dir pat =
      ((LoadTemplatesFromDir fs tree s₀ pre dir pat).1,
        if (FindTemplates dir pat tree).1 = [] then none
        else some Err.weirdState) := by
  unfold LoadTemplatesFromDir at h ⊢
  cases hf : FindTemplates dir pat tree with
  | mk files err =>
    rw [hf] at h
    cases err with
    | some e => simp at h
    | none =>
      simp only [] at h
      simp only []
      have hpair : loadLoop pre fs files s₀ =
          ((loadLoop pre fs files s₀).1, none) := by
        rw [Prod.ext_iff]
        exact ⟨rfl, h⟩
      exact loadLoop_rerun pre fs files s₀ (loadLoop pre fs files s₀).1 hpair

/-- C5 witness for the amended statement at the sample directory. -/
theorem C5_witness :
    LoadTemplatesFromDir sampleFs sampleTree
        (LoadTemplatesFromDir sampleFs sampleTree [] "pre" "root" "*.tmpl").1
        "pre" "root" "*.tmpl" =
      ((LoadTemplatesFromDir sampleFs sampleTree [] "pre" "root" "*.tmpl").1,
        if (FindTemplates "root" "*.tmpl" sampleTree).1 = [] then none
        else some Err.weirdState) :=
  C5_amended sampleFs sampleTree "pre" "root" "*.tmpl" [] (by decide)

mutual
theorem walkGo_spec (pat : String) :
    ∀ (t : FSTree) (path : String) (acc : List String),
      ∃ l e, walkGo pat path t acc = (acc ++ l, e) ∧
        (e = false → l = matchFiles pat path t) ∧
        (e = true → l <+: matchFiles pat path t)
  | FSTree.file n, path, acc => by
    refine ⟨if (fpMatch pat n).1 then [path] else [], false, ?_, ?_, ?_⟩
    · cases hm : (fpMatch pat n).1 <;> simp [walkGo, hm]
    · intro _
      cases hm : (fpMatch pat n).1 <;> simp [matchFiles, walkEntries, hm]
    · intro hc
      cases hc
  | FSTree.dir n r cs, path, acc => by
    have hdir : matchFiles pat path (FSTree.dir n r cs) =
        matchFilesList pat path cs := by
      simp [matchFiles, matchFilesList, walkEntries]
    cases r with
    | false =>
      refine ⟨[], true, by simp [walkGo], ?_, ?_⟩
      · intro hc
        cases hc
      · intro _
        exact ⟨matchFilesList pat path cs, by rw [hdir]; rfl⟩
    | true =>
      obtain ⟨l, e, h1, h2, h3⟩ := walkGoList_spec pat cs path acc
      refine ⟨l, e, ?_, ?_, ?_⟩
      · simpa [walkGo] using h1
      · intro he
        rw [hdir]
        exact h2 he
      · intro he
        rw [hdir]
        exact h3 he

theorem walkGoList_spec (pat : String) :
    ∀ (ts : FSList) (path : String) (acc : List String),
      ∃ l e, walkGoList pat path ts acc = (acc ++ l, e) ∧
        (e = false → l = matchFilesList pat path ts) ∧
        (e = true → l <+: matchFilesList pat path ts)
  | FSList.nil, path, acc => by
    exact ⟨[], false, by simp [walkGoList],
      fun _ => by simp [matchFilesList, walkEntriesList],
      fun hc => by cases hc⟩
  | FSList.cons c cs, path, acc => by
    have hsplit : matchFilesList pat path (FSList.cons c cs) =
        matchFiles pat (fpJoin path (FSTree.name c)) c ++
          matchFilesList pat path cs := by
      simp [matchFilesList, matchFiles, walkEntriesList, List.filter_append]
    obtain ⟨l1, e1, h1, h2, h3⟩ :=
      walkGo_spec pat c (fpJoin path (FSTree.name c)) acc
    cases e1 with
    | true =>
      refine ⟨l1, true, ?_, ?_, ?_⟩
      · simp [walkGoList, h1]
      · intro hc
        cases hc
      · intro _
        rw [hsplit]
        obtain ⟨u, hu⟩ := h3 rfl
        exact ⟨u ++ matchFilesList pat path cs, by rw [← List.append_assoc, hu]⟩
    | false =>
      obtain ⟨l2, e2, g1, g2, g3⟩ := walkGoList_spec pat cs path (acc ++ l1)
      refine ⟨l1 ++ l2, e2, ?_, ?_, ?_⟩
      · simp [walkGoList, h1, g1, List.append_assoc]
      · intro he
        rw [hsplit, h2 rfl, g2 he]
      · intro he
        rw [hsplit, h2 rfl]
        obtain ⟨u, hu⟩ := g3 he
        exact ⟨u, by rw [List.append_assoc, hu]⟩
end

mutual
theorem walkGo_noerr (pat : String) :
    ∀ (t : FSTree) (path : String) (acc : List String),
      FSTree.allReadable t = true → (walkGo pat path t acc).2 = false
  | FSTree.file n, path, acc => by
    intro _
    cases hm : (fpMatch pat n).1 <;> simp [walkGo, hm]
  | FSTree.dir n r cs, path, acc => by
    intro h
    simp only [FSTree.allReadable, Bool.and_eq_true] at h
    rw [h.1]
    simpa [walkGo] using walkGoList_noerr pat cs path acc h.2

theorem walkGoList_noerr (pat : String) :
    ∀ (ts : FSList) (path : String) (acc : List String),
      FSList.allReadable ts = true → (walkGoList pat path ts acc).2 = false
  | FSList.nil, path, acc => by
    intro _
    simp [walkGoList]
  | FSList.cons c cs, path, acc => by
    intro h
    simp only [FSList.allReadable, Bool.and_eq_true] at h
    have hc := walkGo_noerr pat c (fpJoin path (FSTree.name c)) acc h.1
    simp only [walkGoList, hc]
    simpa using
      walkGoList_noerr pat cs path
        (walkGo pat (fpJoin path (FSTree.name c)) c acc).1 h.2
end

/-- C6: on a tree whose walk succeeds, FindTemplates returns exactly the
    non-directory entries under the root whose base name matches the
    pattern under filepath.Match: the result is the filter of the walked
    entries, in walk order, with no error. -/
theorem C6_find_templates_exact (path pat : String) (t : FSTree)
    (h : FSTree.allReadable t = true) :
    FindTemplates path pat t = (matchFiles pat path t, none) := by
  obtain ⟨l, e, h1, h2, h3⟩ := walkGo_spec pat t path []
  have he : e = false := by
    have hn := walkGo_noerr pat t path [] h
    rw [h1] at hn
    exact hn
  unfold FindTemplates
  rw [h1, he, h2 he]
  simp

/-- C6 witness at the sample directory tree. -/
theorem C6_witness :
    FindTemplates "root" "*.tmpl" sampleTree =
      (matchFiles "*.tmpl" "root" sampleTree, none) :=
  C6_find_templates_exact "root" "*.tmpl" sampleTree (by decide)

/-- C7 fails on the code: when a walk aborts, FindTemplates returns the
    matches gathered before the failure alongside the error instead of an
    empty result; on the sample tree with an unreadable subdirectory the
    returned slice is non-empty. -/
theorem C7_counterexample :
    FindTemplates "root" "*.tmpl" badDirTree =
      (["root/a.tmpl"], some Err.walkErr) ∧
    (["root/a.tmpl"] : List String) ≠ [] := by
  constructor
  · decide
  · decide

/-- C7 amended: when the walk fails, FindTemplates returns the walk error
    together with the partial matches gathered before the failure, which
    form a prefix of the complete match list and are not discarded. -/
theorem C7_amended (path pat : String) (t : FSTree) (e : Err)
    (h : (FindTemplates path pat t).2 = some e) :
    e = Err.walkErr ∧
    (FindTemplates path pat t).1 <+: matchFiles pat path t := by
  unfold FindTemplates at h ⊢
  obtain ⟨l, eb, h1, h2, h3⟩ := walkGo_spec pat t path []
  rw [h1] at h ⊢
  cases eb with
  | false => simp at h
  | true =>
    simp at h
    refine ⟨?_, by simpa using h3 rfl⟩
    first
    | exact h
    | exact h.symm

/-- C7 witness for the amended statement at the sample tree with an
    unreadable subdirectory. -/
theorem C7_witness :
    Err.walkErr = Err.walkErr ∧
    (FindTemplates "root" "*.tmpl" badDirTree).1 <+:
      matchFiles "*.tmpl" "root" badDirTree :=
  C7_amended "root" "*.tmpl" badDirTree Err.walkErr (by decide)

theorem scanChunkLoop_append : ∀ (p : List Char) (ir : Bool),
    (scanChunkLoop p ir).1 ++ (scanChunkLoop p ir).2 = p
  | [], _ => rfl
  | c :: cs, ir => by
    unfold scanChunkLoop
    by_cases h1 : c = '\\'
    · rw [if_pos h1]
      cases cs with
      | nil => rfl
      | cons d ds => simpa using scanChunkLoop_append ds ir
    · rw [if_neg h1]
      by_cases h2 : c = '['
      · rw [if_pos h2]
        simpa using scanChunkLoop_append cs true
      · rw [if_neg h2]
        by_cases h3 : c = ']'
        · rw [if_pos h3]
          simpa using scanChunkLoop_append cs false
        · rw [if_neg h3]
          by_cases h4 : c = '*' ∧ ir = false
          · rw [if_pos h4]
            rfl
          · rw [if_neg h4]
            simpa using scanChunkLoop_append cs ir

theorem stripStars_length : ∀ p : List Char, (stripStars p).2.length ≤ p.length
  | [] => le_refl _
  | c :: cs => by
    unfold stripStars
    by_cases h : c = '*'
    · rw [if_pos h]
      exact le_trans (stripStars_length cs) (Nat.le_succ _)
    · rw [if_neg h]

theorem stripStars_head : ∀ p : List Char, (stripStars p).2.headD ' ' ≠ '*'
  | [] => by
    intro h
    simp [stripStars] at h
  | c :: cs => by
    unfold stripStars
    by_cases h : c = '*'
    · rw [if_pos h]
      exact stripStars_head cs
    · rw [if_neg h]
      simpa using h

theorem scanChunkLoop_ne_nil (c : Char) (cs : List Char) (hc : c ≠ '*') :
    (scanChunkLoop (c :: cs) false).1 ≠ [] := by
  unfold scanChunkLoop
  by_cases h1 : c = '\\'
  · rw [if_pos h1]
    cases cs <;> simp
  · rw [if_neg h1]
    by_cases h2 : c = '['
    · rw [if_pos h2]
      simp
    · rw [if_neg h2]
      by_cases h3 : c = ']'
      · rw [if_pos h3]
        simp
      · rw [if_neg h3]
        rw [if_neg (fun h => hc h.1)]
        simp

theorem scanChunk_rest_lt : ∀ p : List Char, p ≠ [] →
    (scanChunk p).2.2.length < p.length := by
  intro p hp
  cases hsp : (stripStars p).2 with
  | nil =>
    have hz : (scanChunk p).2.2 = [] := by
      simp only [scanChunk]
      rw [hsp]
      rfl
    rw [hz]
    cases p with
    | nil => exact absurd rfl hp
    | cons a as => simp
  | cons c cs =>
    have hc : c ≠ '*' := by
      have h := stripStars_head p
      rw [hsp] at h
      simpa using h
    have hne := scanChunkLoop_ne_nil c cs hc
    have happ := scanChunkLoop_append (c :: cs) false
    have hlen : (scanChunkLoop (c :: cs) false).1.length +
        (scanChunkLoop (c :: cs) false).2.length = cs.length + 1 := by
      have h := congrArg List.length happ
      simpa [List.length_append] using h
    have hpos : 0 < (scanChunkLoop (c :: cs) false).1.length :=
      List.length_pos.mpr hne
    have hle : cs.length + 1 ≤ p.length := by
      have h := stripStars_length p
      rw [hsp] at h
      simpa using h
    have hrest : (scanChunk p).2.2 = (scanChunkLoop (c :: cs) false).2 := by
      simp only [scanChunk]
      rw [hsp]
    rw [hrest]
    omega

theorem scanChunk_chunk_nil (p : List Char) (h : (scanChunk p).2.1 = []) :
    (scanChunk p).2.2 = [] := by
  cases hsp : (stripStars p).2 with
  | nil =>
    simp only [scanChunk]
    rw [hsp]
    rfl
  | cons c cs =>
    have hc : c ≠ '*' := by
      have hh := stripStars_head p
      rw [hsp] at hh
      simpa using hh
    have hne := scanChunkLoop_ne_nil c cs hc
    simp only [scanChunk] at h
    rw [hsp] at h
    exact absurd h hne

theorem parseRanges_shape : ∀ (fuel : Nat) (chunk : List Char) (n : Nat)
    (r r' : Char) (m m' : Bool),
    (parseRanges fuel chunk r n m = Except.error () ∧
      parseRanges fuel chunk r' n m' = Except.error ()) ∨
    (∃ b b' rest, parseRanges fuel chunk r n m = Except.ok (b, rest) ∧
      parseRanges fuel chunk r' n m' = Except.ok (b', rest)) := by
  intro fuel
  induction fuel with
  | zero =>
    intro chunk n r r' m m'
    left
    exact ⟨rfl, rfl⟩
  | succ fuel ih =>
    intro chunk n r r' m m'
    simp only [parseRanges]
    split_ifs with h1
    · right
      exact ⟨m, m', chunk.tail, rfl, rfl⟩
    · cases hg : getEsc chunk with
      | error u =>
        left
        exact ⟨rfl, rfl⟩
      | ok pr =>
        obtain ⟨lo, rest1⟩ := pr
        simp only []
        split_ifs with h2
        · cases hg2 : getEsc rest1.tail with
          | error u =>
            left
            exact ⟨rfl, rfl⟩
          | ok pr2 =>
            obtain ⟨hi, rest3⟩ := pr2
            exact ih rest3 (n + 1) r r' _ _
        · exact ih rest1 (n + 1) r r' _ _

theorem parseRanges_no_mix {fuel : Nat} {chunk : List Char} {n : Nat}
    {r r' : Char} {m m' : Bool} {u : Unit} {b : Bool} {rest : List Char}
    (h1 : parseRanges fuel chunk r n m = Except.error u)
    (h2 : parseRanges fuel chunk r' n m' = Except.ok (b, rest)) : False := by
  rcases parseRanges_shape fuel chunk n r r' m m' with ⟨g1, g2⟩ | ⟨c, c', rst, g1, g2⟩
  · rw [g2] at h2
    cases h2
  · rw [g1] at h1
    cases h1

theorem parseRanges_join {fuel : Nat} {chunk : List Char} {n : Nat}
    {r r' : Char} {m m' : Bool} {b b' : Bool} {rest rest' : List Char}
    (h1 : parseRanges fuel chunk r n m = Except.ok (b, rest))
    (h2 : parseRanges fuel chunk r' n m' = Except.ok (b', rest')) :
    rest' = rest := by
  rcases parseRanges_shape fuel chunk n r r' m m' with ⟨g1, g2⟩ | ⟨c, c', rst, g1, g2⟩
  · rw [g1] at h1
    cases h1
  · rw [g1] at h1
    rw [g2] at h2
    cases h1
    cases h2
    rfl

theorem mc_err_iff : ∀ (fuel : Nat) (chunk s s' : List Char) (f f' : Bool),
    (matchChunkGo fuel chunk s f = ChunkRes.err ↔
      matchChunkGo fuel chunk s' f' = ChunkRes.err) := by
  intro fuel
  induction fuel with
  | zero =>
    intro chunk s s' f f'
    cases chunk with
    | nil => cases f <;> cases f' <;> simp [matchChunkGo]
    | cons c cr => simp [matchChunkGo]
  | succ fuel ih =>
    intro chunk s s' f f'
    cases chunk with
    | nil => cases f <;> cases f' <;> simp [matchChunkGo]
    | cons c cr =>
      simp only [matchChunkGo]
      by_cases h1 : c = '['
      · simp only [if_pos h1]
        constructor
        · intro h
          split at h
          · rename_i heq
            split
            · rfl
            · rename_i heq2
              exact (parseRanges_no_mix heq heq2).elim
          · rename_i m2 chunk2 heq
            split
            · rfl
            · rename_i m3 chunk3 heq2
              have hrw := parseRanges_join heq heq2
              subst hrw
              exact (ih _ _ _ _ _).mp h
        · intro h
          split at h
          · rename_i heq
            split
            · rfl
            · rename_i heq2
              exact (parseRanges_no_mix heq heq2).elim
          · rename_i m2 chunk2 heq
            split
            · rfl
            · rename_i m3 chunk3 heq2
              have hrw := parseRanges_join heq heq2
              subst hrw
              exact (ih _ _ _ _ _).mp h
      · simp only [if_neg h1]
        by_cases h2 : c = '?'
        · simp only [if_pos h2]
          split <;> split <;> exact ih _ _ _ _ _
        · simp only [if_neg h2]
          by_cases h3 : c = '\\'
          · simp only [if_pos h3]
            cases cr with
            | nil => simp
            | cons d dr =>
              simp only []
              split <;> split <;> exact ih _ _ _ _ _
          · simp only [if_neg h3]
            split <;> split <;> exact ih _ _ _ _ _

theorem validRest_fuel : ∀ (f1 : Nat) (p : List Char) (f2 : Nat),
    p.length + 1 ≤ f1 → p.length + 1 ≤ f2 → validRest f1 p = validRest f2 p := by
  intro f1
  induction f1 with
  | zero =>
    intro p f2 h1 h2
    omega
  | succ f1 ih =>
    intro p f2 h1 h2
    cases p with
    | nil =>
      cases f2 with
      | zero => rfl
      | succ f2 => rfl
    | cons c cs =>
      cases f2 with
      | zero => omega
      | succ f2 =>
        simp only [validRest]
        have hlt := scanChunk_rest_lt (c :: cs) (by simp)
        simp only [List.length_cons] at hlt
        cases hmc : matchChunkGo ((scanChunk (c :: cs)).2.1.length + 1)
            (scanChunk (c :: cs)).2.1 [] false with
        | err => rfl
        | failed =>
          apply ih
          · simp at h1
            omega
          · simp at h2
            omega
        | ok t =>
          apply ih
          · simp at h1
            omega
          · simp at h2
            omega

theorem starLoop_err : ∀ (chunk : List Char) (b : Bool) (nm : List Char),
    starLoop chunk b nm = StarRes.err →
    matchChunkGo (chunk.length + 1) chunk [] false = ChunkRes.err
  | chunk, b, [] => by
    intro h
    simp [starLoop] at h
  | chunk, b, c :: rest => by
    intro h
    simp only [starLoop] at h
    by_cases hc : c = '/'
    · rw [if_pos hc] at h
      cases h
    · rw [if_neg hc] at h
      revert h
      cases hmc : matchChunkGo (chunk.length + 1) chunk rest false with
      | err =>
        intro _
        exact (mc_err_iff _ _ _ _ _ _).mp hmc
      | ok t =>
        intro h
        simp only [] at h
        by_cases hbt : b = true ∧ ¬t = []
        · rw [if_pos hbt] at h
          exact starLoop_err chunk b rest h
        · rw [if_neg hbt] at h
          cases h
      | failed =>
        intro h
        simp only [] at h
        exact starLoop_err chunk b rest h

theorem matchLoop_bad : ∀ (fuel : Nat) (p n : List Char),
    p.length + 1 ≤ fuel → validRest (p.length + 1) p = false →
    matchLoop fuel p n = MRes.badPattern := by
  intro fuel
  induction fuel with
  | zero =>
    intro p n h1 h2
    omega
  | succ fuel ih =>
    intro p n h1 h2
    cases p with
    | nil => simp [validRest] at h2
    | cons c cr =>
      have hlt := scanChunk_rest_lt (c :: cr) (by simp)
      simp only [List.length_cons] at hlt h1
      simp only [List.length_cons, validRest] at h2
      simp only [matchLoop]
      by_cases hch : (scanChunk (c :: cr)).2.1 = []
      · have hrest := scanChunk_chunk_nil _ hch
        rw [hch, hrest] at h2
        simp [matchChunkGo, validRest] at h2
      · rw [if_neg (fun hcontra => hch hcontra.2)]
        revert h2
        cases hmc : matchChunkGo ((scanChunk (c :: cr)).2.1.length + 1)
            (scanChunk (c :: cr)).2.1 [] false with
        | err =>
          intro _
          cases hmn : matchChunkGo ((scanChunk (c :: cr)).2.1.length + 1)
              (scanChunk (c :: cr)).2.1 n false with
          | err => rfl
          | ok t =>
            have hx := (mc_err_iff _ _ [] n false false).mp hmc
            rw [hmn] at hx
            cases hx
          | failed =>
            have hx := (mc_err_iff _ _ [] n false false).mp hmc
            rw [hmn] at hx
            cases hx
        | ok t0 =>
          intro h2
          simp only [] at h2
          have hv' : validRest ((scanChunk (c :: cr)).2.2.length + 1)
              (scanChunk (c :: cr)).2.2 = false := by
            rw [validRest_fuel _ _ (cr.length + 1) (le_refl _) (by omega)]
            exact h2
          cases hmn : matchChunkGo ((scanChunk (c :: cr)).2.1.length + 1)
              (scanChunk (c :: cr)).2.1 n false with
          | err => rfl
          | ok t =>
            simp only []
            by_cases hto : t = [] ∨ (scanChunk (c :: cr)).2.2 ≠ []
            · rw [if_pos hto]
              exact ih _ t (by omega) hv'
            · push_neg at hto
              rw [hto.2] at hv'
              simp [validRest] at hv'
          | failed =>
            simp only []
            by_cases hst : (scanChunk (c :: cr)).1 = true
            · rw [if_pos hst]
              cases hsl : starLoop (scanChunk (c :: cr)).2.1
                  (scanChunk (c :: cr)).2.2.isEmpty n with
              | found t => exact ih _ t (by omega) hv'
              | err => rfl
              | exhausted =>
                rw [hv']
                rfl
            · rw [if_neg hst]
              rw [hv']
              rfl
        | failed =>
          intro h2
          simp only [] at h2
          have hv' : validRest ((scanChunk (c :: cr)).2.2.length + 1)
              (scanChunk (c :: cr)).2.2 = false := by
            rw [validRest_fuel _ _ (cr.length + 1) (le_refl _) (by omega)]
            exact h2
          cases hmn : matchChunkGo ((scanChunk (c :: cr)).2.1.length + 1)
              (scanChunk (c :: cr)).2.1 n false with
          | err => rfl
          | ok t =>
            simp only []
            by_cases hto : t = [] ∨ (scanChunk (c :: cr)).2.2 ≠ []
            · rw [if_pos hto]
              exact ih _ t (by omega) hv'
            · push_neg at hto
              rw [hto.2] at hv'
              simp [validRest] at hv'
          | failed =>
            simp only []
            by_cases hst : (scanChunk (c :: cr)).1 = true
            · rw [if_pos hst]
              cases hsl : starLoop (scanChunk (c :: cr)).2.1
                  (scanChunk (c :: cr)).2.2.isEmpty n with
              | found t => exact ih _ t (by omega) hv'
              | err => rfl
              | exhausted =>
                rw [hv']
                rfl
            · rw [if_neg hst]
              rw [hv']
              rfl

theorem matchLoop_not_bad : ∀ (fuel : Nat) (p n : List Char),
    p.length + 1 ≤ fuel → validRest (p.length + 1) p = true →
    matchLoop fuel p n ≠ MRes.badPattern := by
  intro fuel
  induction fuel with
  | zero =>
    intro p n h1 h2
    omega
  | succ fuel ih =>
    intro p n h1 h2
    cases p with
    | nil =>
      simp only [matchLoop]
      split <;> simp
    | cons c cr =>
      have hlt := scanChunk_rest_lt (c :: cr) (by simp)
      simp only [List.length_cons] at hlt h1
      simp only [List.length_cons, validRest] at h2
      simp only [matchLoop]
      by_cases hsc : (scanChunk (c :: cr)).1 = true ∧ (scanChunk (c :: cr)).2.1 = []
      · rw [if_pos hsc]
        split <;> simp
      · rw [if_neg hsc]
        revert h2
        cases hmc : matchChunkGo ((scanChunk (c :: cr)).2.1.length + 1)
            (scanChunk (c :: cr)).2.1 [] false with
        | err =>
          intro h2
          simp at h2
        | ok t0 =>
          intro h2
          simp only [] at h2
          have hv' : validRest ((scanChunk (c :: cr)).2.2.length + 1)
              (scanChunk (c :: cr)).2.2 = true := by
            rw [validRest_fuel _ _ (cr.length + 1) (le_refl _) (by omega)]
            exact h2
          cases hmn : matchChunkGo ((scanChunk (c :: cr)).2.1.length + 1)
              (scanChunk (c :: cr)).2.1 n false with
          | err =>
            have hx := (mc_err_iff _ _ n [] false false).mp hmn
            rw [hmc] at hx
            cases hx
          | ok t =>
            simp only []
            by_cases hto : t = [] ∨ (scanChunk (c :: cr)).2.2 ≠ []
            · rw [if_pos hto]
              exact ih _ t (by omega) hv'
            · rw [if_neg hto]
              by_cases hst : (scanChunk (c :: cr)).1 = true
              · rw [if_pos hst]
                cases hsl : starLoop (scanChunk (c :: cr)).2.1
                    (scanChunk (c :: cr)).2.2.isEmpty n with
                | found t2 => exact ih _ t2 (by omega) hv'
                | err =>
                  have hx := starLoop_err _ _ _ hsl
                  rw [hmc] at hx
                  cases hx
                | exhausted =>
                  rw [hv']
                  simp
              · rw [if_neg hst]
                rw [hv']
                simp
          | failed =>
            simp only []
            by_cases hst : (scanChunk (c :: cr)).1 = true
            · rw [if_pos hst]
              cases hsl : starLoop (scanChunk (c :: cr)).2.1
                  (scanChunk (c :: cr)).2.2.isEmpty n with
              | found t2 => exact ih _ t2 (by omega) hv'
              | err =>
                have hx := starLoop_err _ _ _ hsl
                rw [hmc] at hx
                cases hx
              | exhausted =>
                rw [hv']
                simp
            · rw [if_neg hst]
              rw [hv']
              simp
        | failed =>
          intro h2
          simp only [] at h2
          have hv' : validRest ((scanChunk (c :: cr)).2.2.length + 1)
              (scanChunk (c :: cr)).2.2 = true := by
            rw [validRest_fuel _ _ (cr.length + 1) (le_refl _) (by omega)]
            exact h2
          cases hmn : matchChunkGo ((scanChunk (c :: cr)).2.1.length + 1)
              (scanChunk (c :: cr)).2.1 n false with
          | err =>
            have hx := (mc_err_iff _ _ n [] false false).mp hmn
            rw [hmc] at hx
            cases hx
          | ok t =>
            simp only []
            by_cases hto : t = [] ∨ (scanChunk (c :: cr)).2.2 ≠ []
            · rw [if_pos hto]
              exact ih _ t (by omega) hv'
            · rw [if_neg hto]
              by_cases hst : (scanChunk (c :: cr)).1 = true
              · rw [if_pos hst]
                cases hsl : starLoop (scanChunk (c :: cr)).2.1
                    (scanChunk (c :: cr)).2.2.isEmpty n with
                | found t2 => exact ih _ t2 (by omega) hv'
                | err =>
                  have hx := starLoop_err _ _ _ hsl
                  rw [hmc] at hx
                  cases hx
                | exhausted =>
                  rw [hv']
                  simp
              · rw [if_neg hst]
                rw [hv']
                simp
          | failed =>
            simp only []
            by_cases hst : (scanChunk (c :: cr)).1 = true
            · rw [if_pos hst]
              cases hsl : starLoop (scanChunk (c :: cr)).2.1
                  (scanChunk (c :: cr)).2.2.isEmpty n with
              | found t2 => exact ih _ t2 (by omega) hv'
              | err =>
                have hx := starLoop_err _ _ _ hsl
                rw [hmc] at hx
                cases hx
              | exhausted =>
                rw [hv']
                simp
            · rw [if_neg hst]
              rw [hv']
              simp

theorem fpMatch_err_all (pat n0 : String) (h : (fpMatch pat n0).2 = true) :
    ∀ n : String, fpMatch pat n = (false, true) := by
  have hbad : matchLoop (pat.length + 1) pat.data n0.data = MRes.badPattern := by
    unfold fpMatch at h
    revert h
    cases hm : matchLoop (pat.length + 1) pat.data n0.data with
    | matched =>
      intro h
      simp at h
    | noMatch =>
      intro h
      simp at h
    | badPattern =>
      intro _
      rfl
  have hlen : pat.data.length + 1 ≤ pat.length + 1 := le_refl _
  have hval : validRest (pat.data.length + 1) pat.data = false := by
    cases hv : validRest (pat.data.length + 1) pat.data with
    | false => rfl
    | true => exact absurd hbad (matchLoop_not_bad _ _ _ hlen hv)
  intro n
  unfold fpMatch
  rw [matchLoop_bad (pat.length + 1) pat.data n.data hlen hval]

/-- C9: when the glob pattern is malformed (filepath.Match rejects it on
    some name with ErrBadPattern), FindTemplates over any readable tree
    returns an empty match list and no error: the walker discards the
    pattern-syntax error, making a bad pattern indistinguishable from a
    directory containing no matching file. -/
theorem C9_bad_pattern_silent (path pat : String) (t : FSTree) (n0 : String)
    (hr : FSTree.allReadable t = true) (hbad : (fpMatch pat n0).2 = true) :
    FindTemplates path pat t = ([], none) := by
  have hall := fpMatch_err_all pat n0 hbad
  obtain ⟨l, e, h1, h2, h3⟩ := walkGo_spec pat t path []
  have he : e = false := by
    have hn := walkGo_noerr pat t path [] hr
    rw [h1] at hn
    exact hn
  have hmf : matchFiles pat path t = [] := by
    unfold matchFiles
    have hnone : ∀ x ∈ walkEntries path t,
        ¬((!x.2.2 && (fpMatch pat x.2.1).1) = true) := by
      intro x _
      rw [hall x.2.1]
      simp
    rw [List.filter_eq_nil_iff.mpr hnone]
    rfl
  unfold FindTemplates
  rw [h1, he, h2 he, hmf]
  simp

/-- C9 witness: the malformed pattern at a concrete readable tree. -/
theorem C9_witness : FindTemplates "root" "[" sampleTree = ([], none) :=
  C9_bad_pattern_silent "root" "[" sampleTree "x" (by decide) (by decide)
